import Mathlib

/-!
Shallow embedding of the Winery Board auth/todo backend (Express server).

The server keeps two durable partitions of account records (`users`,
`admins`), an in-memory session map, and exposes HTTP endpoints for
registration, login, session lookup, per-account todo CRUD, an admin
overview and admin user provisioning.  Each route handler is embedded
as a pure Lean function from an explicit state (plus the request data
and the values that the runtime supplies nondeterministically: fresh
UUIDs and clock readings) to a response and a new state.

External primitives are modelled opaquely:
- `bcrypt.hash`/`bcrypt.compare` become a wrapper type `Hash` with a
  deterministic pairing `bcryptHash`/`bcryptCompare` satisfying the
  verify-of-derive contract;
- zod's `z.string().email()` format test is external library code; it is
  modelled by `emailFormatOk` (presence of an at-sign).  No claim below
  depends on its exact extension, only on it being some fixed predicate;
- JavaScript `String.prototype.toLowerCase` is embedded as ASCII
  lowercasing `lowerStr`, and `String.prototype.trim` as `jsTrim`;
  string primitives are defined by structural recursion on the
  character list so that concrete instances evaluate by `decide`.
-/

/-- Roles carried by accounts and sessions: the string enum from the
source (`'user' | 'admin'`). -/
inductive Role
  | user
  | admin
deriving Repr, DecidableEq

/-- Opaque password hash, modelling the output of `bcrypt.hash`. -/
structure Hash where
  plain : String
deriving Repr, DecidableEq

/-- Model of `bcrypt.hash(password, 10)`. -/
def bcryptHash (password : String) : Hash :=
  Hash.mk password

/-- Model of `bcrypt.compare(plain, hash)`. -/
def bcryptCompare (plain : String) (h : Hash) : Bool :=
  plain == h.plain

/-- ASCII lowercasing of one character, embedding what JavaScript
`toLowerCase` does on the ASCII range. -/
def lowerChar (c : Char) : Char :=
  if 65 ≤ c.toNat ∧ c.toNat ≤ 90 then Char.ofNat (c.toNat + 32) else c

/-- Embedding of `String.prototype.toLowerCase` (ASCII range). -/
def lowerStr (s : String) : String :=
  String.mk (s.data.map lowerChar)

/-- Embedding of `String.prototype.trim`: drop whitespace from both
ends. -/
def jsTrim (s : String) : String :=
  String.mk
    (((s.data.dropWhile Char.isWhitespace).reverse.dropWhile
      Char.isWhitespace).reverse)

/-- Opaque stand-in for zod's `z.string().email()` format check (external
library code; no claim depends on its exact extension). -/
def emailFormatOk (s : String) : Bool :=
  s.data.contains '@'

/-- Validation of the `registerSchema` zod object: name 2..40, valid
email, password 6..64. -/
def registerSchemaOk (name email password : String) : Bool :=
  2 ≤ name.length && name.length ≤ 40 && emailFormatOk email &&
    6 ≤ password.length && password.length ≤ 64

/-- Validation of the `loginSchema` zod object. -/
def loginSchemaOk (email password : String) : Bool :=
  emailFormatOk email && 6 ≤ password.length && password.length ≤ 64

/-- Validation of the `todoCreateSchema` zod object:
`label: z.string().min(1).max(140)` — on the raw, untrimmed label. -/
def todoCreateSchemaOk (label : String) : Bool :=
  1 ≤ label.length && label.length ≤ 140

/-- Task record as stored in an account's `todos` array. -/
structure Todo where
  id : String
  label : String
  done : Bool
  createdAt : Nat
deriving Repr, DecidableEq

/-- Account record as stored in a durable partition. -/
structure Account where
  id : String
  name : String
  email : String
  passwordHash : Hash
  role : Role
  createdAt : Nat
  todos : List Todo
deriving Repr, DecidableEq

/-- Public profile: an account with the `passwordHash` field removed,
the shape produced by `scrubMember` (rest-spread minus `passwordHash`). -/
structure Profile where
  id : String
  name : String
  email : String
  role : Role
  createdAt : Nat
  todos : List Todo
deriving Repr, DecidableEq

/-- Embedding of `scrubMember`: drop the `passwordHash` field, keep the
rest. -/
def scrubMember (a : Account) : Profile :=
  Profile.mk a.id a.name a.email a.role a.createdAt a.todos

/-- One entry of the in-memory session map. -/
structure SessionEntry where
  userId : String
  role : Role
  createdAt : Nat
deriving Repr, DecidableEq

/-- Whole server state: the two durable partitions plus the in-memory
session map (newest entry first; lookup takes the first match, which
gives `Map.set`/`Map.get` overwrite semantics). -/
structure St where
  users : List Account
  admins : List Account
  sessions : List (String × SessionEntry)
deriving Repr, DecidableEq

/-- Embedding of `getSession`. -/
def getSession (ss : List (String × SessionEntry)) (token : String) :
    Option SessionEntry :=
  match ss.find? (fun e => e.1 == token) with
  | none => none
  | some e => some e.2

/-- The partition (`readUsers` vs `readAdmins`) selected by a role. -/
def partitionOf (st : St) (r : Role) : List Account :=
  match r with
  | Role.user => st.users
  | Role.admin => st.admins

/-- The partition writer (`writeUsers` vs `writeAdmins`) selected by a
role: overwrite that partition with the given list. -/
def writerFor (r : Role) (l : List Account) (st : St) : St :=
  match r with
  | Role.user => St.mk l st.admins st.sessions
  | Role.admin => St.mk st.users l st.sessions

/-- The other role, used to state frame conditions of `writerFor`. -/
def Role.other : Role → Role
  | Role.user => Role.admin
  | Role.admin => Role.user

/-- Error taxonomy of the HTTP surface, one constructor per structured
`{message: ...}` body the handlers produce. -/
inductive ApiErr
  | missingToken
  | invalidToken
  | forbidden
  | validationError
  | emailInUse
  | invalidCredentials
  | notFound
deriving Repr, DecidableEq

/-- HTTP status code each error is sent with in the source. -/
def ApiErr.status : ApiErr → Nat
  | ApiErr.missingToken => 401
  | ApiErr.invalidToken => 401
  | ApiErr.forbidden => 403
  | ApiErr.validationError => 400
  | ApiErr.emailInUse => 409
  | ApiErr.invalidCredentials => 401
  | ApiErr.notFound => 404

/-- The `message` string each error is sent with in the source. -/
def ApiErr.message : ApiErr → String
  | ApiErr.missingToken => "missing-token"
  | ApiErr.invalidToken => "invalid-token"
  | ApiErr.forbidden => "forbidden"
  | ApiErr.validationError => "validation-error"
  | ApiErr.emailInUse => "email-in-use"
  | ApiErr.invalidCredentials => "invalid-credentials"
  | ApiErr.notFound => "not-found"

/-- Result of the authorization gate `requireAuth`: an error response,
or the live account, the partition list it was found in, and the role
(which determines the bound partition writer `writerFor role`). -/
inductive AuthResult
  | err (e : ApiErr)
  | ok (user : Account) (list : List Account) (role : Role)
deriving Repr, DecidableEq

/-- Test for `authHeader.startsWith('Bearer ')`. -/
def hasBearer (authHeader : String) : Bool :=
  List.isPrefixOf "Bearer ".data authHeader.data

/-- Token extraction: `authHeader.replace('Bearer ', '')` equals
dropping the 7-character marker once the header is known to start with
it. -/
def bearerToken (authHeader : String) : String :=
  String.mk (authHeader.data.drop 7)

/-- Embedding of `requireAuth(req, res, requireAdmin)`.  The
`authHeader` argument is the `authorization` header, `""` when absent
(the source's `req.headers.authorization || ''`). -/
def requireAuth (st : St) (authHeader : String) (requireAdmin : Bool) :
    AuthResult :=
  if hasBearer authHeader = false then
    AuthResult.err ApiErr.missingToken
  else
    match getSession st.sessions (bearerToken authHeader) with
    | none => AuthResult.err ApiErr.invalidToken
    | some session =>
      match (partitionOf st session.role).find?
          (fun entry => entry.id == session.userId) with
      | none => AuthResult.err ApiErr.invalidToken
      | some user =>
        if requireAdmin = true ∧ session.role ≠ Role.admin then
          AuthResult.err ApiErr.forbidden
        else
          AuthResult.ok user (partitionOf st session.role) session.role

/-- Response of `POST /api/auth/register`. -/
inductive RegisterResp
  | err (e : ApiErr)
  | created (token : String) (profile : Profile)
deriving Repr, DecidableEq

/-- Embedding of the `POST /api/auth/register` handler.  `newId` is the
`randomUUID()` for the account, `tok` the `randomUUID()` session token
and `now` the clock reading. -/
def register (st : St) (name email password : String)
    (newId tok : String) (now : Nat) : RegisterResp × St :=
  if registerSchemaOk name email password = false then
    (RegisterResp.err ApiErr.validationError, st)
  else if ((st.users.find?
        (fun u => lowerStr u.email == lowerStr email)).isSome
      || (st.admins.find?
        (fun a => lowerStr a.email == lowerStr email)).isSome) = true then
    (RegisterResp.err ApiErr.emailInUse, st)
  else
    let newUser : Account :=
      Account.mk newId (jsTrim name) (lowerStr email) (bcryptHash password)
        Role.user now []
    (RegisterResp.created tok (scrubMember newUser),
      St.mk (st.users ++ [newUser]) st.admins
        ((tok, SessionEntry.mk newId Role.user now) :: st.sessions))

/-- Response of `POST /api/auth/login`. -/
inductive LoginResp
  | err (e : ApiErr)
  | ok (token : String) (profile : Profile)
deriving Repr, DecidableEq

/-- HTTP status the login handler answers with. -/
def LoginResp.status : LoginResp → Nat
  | LoginResp.err e => e.status
  | LoginResp.ok _ _ => 200

/-- Embedding of the `POST /api/auth/login` handler: find by exact match
on the lower-cased input email, `users` partition first, then `admins`;
identical `invalid-credentials` answer for unknown email and failed
password check. -/
def login (st : St) (email password : String) (tok : String) (now : Nat) :
    LoginResp × St :=
  if loginSchemaOk email password = false then
    (LoginResp.err ApiErr.validationError, st)
  else
    match st.users.find? (fun u => u.email == lowerStr email) with
    | some user =>
      if bcryptCompare password user.passwordHash then
        (LoginResp.ok tok (scrubMember user),
          St.mk st.users st.admins
            ((tok, SessionEntry.mk user.id Role.user now) :: st.sessions))
      else (LoginResp.err ApiErr.invalidCredentials, st)
    | none =>
      match st.admins.find? (fun a => a.email == lowerStr email) with
      | some user =>
        if bcryptCompare password user.passwordHash then
          (LoginResp.ok tok (scrubMember user),
            St.mk st.users st.admins
              ((tok, SessionEntry.mk user.id Role.admin now) :: st.sessions))
        else (LoginResp.err ApiErr.invalidCredentials, st)
      | none => (LoginResp.err ApiErr.invalidCredentials, st)

/-- Response of `GET /api/auth/session`. -/
inductive SessionResp
  | err (e : ApiErr)
  | ok (profile : Profile)
deriving Repr, DecidableEq

/-- Embedding of the `GET /api/auth/session` handler. -/
def sessionEndpoint (st : St) (authHeader : String) : SessionResp :=
  match requireAuth st authHeader false with
  | AuthResult.err e => SessionResp.err e
  | AuthResult.ok user _ _ => SessionResp.ok (scrubMember user)

/-- Replace the first account with the given id by its image under `f`,
embedding the source's in-place mutation of the record that
`list.find(...)` returned. -/
def updateFirstById (l : List Account) (uid : String)
    (f : Account → Account) : List Account :=
  match l with
  | [] => []
  | a :: rest =>
    if a.id == uid then f a :: rest else a :: updateFirstById rest uid f

/-- Response of `POST /api/todos`. -/
inductive CreateTodoResp
  | err (e : ApiErr)
  | created (todo : Todo)
deriving Repr, DecidableEq

/-- The account mutation the create handler performs on the caller's
record: prepend the fresh task to its todo list. -/
def createUpd (todo : Todo) (u : Account) : Account :=
  Account.mk u.id u.name u.email u.passwordHash u.role u.createdAt
    (todo :: u.todos)

/-- Embedding of the `POST /api/todos` handler: authenticate, validate
the raw label with `todoCreateSchema`, prepend a fresh not-done task
whose label is the trimmed input, persist the partition. -/
def createTodo (st : St) (authHeader label : String) (newId : String)
    (now : Nat) : CreateTodoResp × St :=
  match requireAuth st authHeader false with
  | AuthResult.err e => (CreateTodoResp.err e, st)
  | AuthResult.ok user list role =>
    if todoCreateSchemaOk label = false then
      (CreateTodoResp.err ApiErr.validationError, st)
    else
      let todo : Todo := Todo.mk newId (jsTrim label) false now
      (CreateTodoResp.created todo,
        writerFor role
          (updateFirstById list user.id (createUpd todo))
          st)

/-- Response of `PATCH /api/todos/:id`. -/
inductive ToggleResp
  | err (e : ApiErr)
  | ok (todo : Todo)
deriving Repr, DecidableEq

/-- Set the done flag of the first todo with the given id: to the
explicit value when one was sent, else to the negation of its current
value (the source's `typeof req.body?.done === 'boolean' ? req.body.done
: !todo.done`). -/
def toggleFirstTodo (todos : List Todo) (tid : String)
    (explicitDone : Option Bool) : List Todo :=
  match todos with
  | [] => []
  | t :: rest =>
    if t.id == tid then
      Todo.mk t.id t.label (explicitDone.getD (!t.done)) t.createdAt :: rest
    else t :: toggleFirstTodo rest tid explicitDone

/-- The account mutation the PATCH handler performs on the caller's
record: replace its todo list by the toggled one. -/
def toggleUpd (tid : String) (explicitDone : Option Bool)
    (u : Account) : Account :=
  Account.mk u.id u.name u.email u.passwordHash u.role u.createdAt
    (toggleFirstTodo u.todos tid explicitDone)

/-- Embedding of the `PATCH /api/todos/:id` handler.  `explicitDone` is
`some b` when the request body carried a boolean `done`, `none`
otherwise. -/
def toggleTodo (st : St) (authHeader tid : String)
    (explicitDone : Option Bool) : ToggleResp × St :=
  match requireAuth st authHeader false with
  | AuthResult.err e => (ToggleResp.err e, st)
  | AuthResult.ok user list role =>
    match user.todos.find? (fun t => t.id == tid) with
    | none => (ToggleResp.err ApiErr.notFound, st)
    | some t =>
      (ToggleResp.ok
        (Todo.mk t.id t.label (explicitDone.getD (!t.done)) t.createdAt),
        writerFor role
          (updateFirstById list user.id (toggleUpd tid explicitDone))
          st)

/-- The account mutation the delete handler performs on the caller's
record: filter the task out of its todo list. -/
def deleteUpd (tid : String) (u : Account) : Account :=
  Account.mk u.id u.name u.email u.passwordHash u.role u.createdAt
    (u.todos.filter (fun t => t.id != tid))

/-- Response of `DELETE /api/todos/:id`. -/
inductive DeleteResp
  | err (e : ApiErr)
  | noContent
deriving Repr, DecidableEq

/-- Embedding of the `DELETE /api/todos/:id` handler.  The third
component of the result records whether the partition writer was
invoked (a persistence call happened). -/
def deleteTodo (st : St) (authHeader tid : String) :
    DeleteResp × St × Bool :=
  match requireAuth st authHeader false with
  | AuthResult.err e => (DeleteResp.err e, st, false)
  | AuthResult.ok user list role =>
    let next := user.todos.filter (fun t => t.id != tid)
    if next.length == user.todos.length then
      (DeleteResp.err ApiErr.notFound, st, false)
    else
      (DeleteResp.noContent,
        writerFor role
          (updateFirstById list user.id (deleteUpd tid))
          st,
        true)

/-- Response of `GET /api/admin/overview`. -/
inductive OverviewResp
  | err (e : ApiErr)
  | ok (users admins : List Profile)
deriving Repr, DecidableEq

/-- Embedding of the `GET /api/admin/overview` handler. -/
def adminOverview (st : St) (authHeader : String) : OverviewResp :=
  match requireAuth st authHeader true with
  | AuthResult.err e => OverviewResp.err e
  | AuthResult.ok _ _ _ =>
    OverviewResp.ok (st.users.map scrubMember) (st.admins.map scrubMember)

/-- Response of `POST /api/admin/users`. -/
inductive AdminCreateResp
  | err (e : ApiErr)
  | created (profile : Profile)
deriving Repr, DecidableEq

/-- Embedding of the `POST /api/admin/users` handler: admin-gated, same
shape validation as registration plus an optional role (default
`user`); the uniqueness check compares the stored emails by exact
equality against the lower-cased requested email; the new account goes
to the partition selected by the chosen role. -/
def adminCreateUser (st : St) (authHeader : String)
    (name email password : String) (role? : Option Role)
    (newId : String) (now : Nat) : AdminCreateResp × St :=
  match requireAuth st authHeader true with
  | AuthResult.err e => (AdminCreateResp.err e, st)
  | AuthResult.ok _ _ _ =>
    if registerSchemaOk name email password = false then
      (AdminCreateResp.err ApiErr.validationError, st)
    else if ((st.users.find? (fun u => u.email == lowerStr email)).isSome
        || (st.admins.find? (fun a => a.email == lowerStr email)).isSome)
        = true then
      (AdminCreateResp.err ApiErr.emailInUse, st)
    else
      let newUser : Account :=
        Account.mk newId (jsTrim name) (lowerStr email) (bcryptHash password)
          (role?.getD Role.user) now []
      match role?.getD Role.user with
      | Role.admin =>
        (AdminCreateResp.created (scrubMember newUser),
          St.mk st.users (st.admins ++ [newUser]) st.sessions)
      | Role.user =>
        (AdminCreateResp.created (scrubMember newUser),
          St.mk (st.users ++ [newUser]) st.admins st.sessions)

/-- Embedding of `ensureSeedAdmin`: lower-case the configured seed
email, look for an exact match in the admin partition, and when absent
append one admin account and persist.  The boolean records whether the
partition was written. -/
def ensureSeedAdmin (st : St) (envEmail envPassword envName : String)
    (newId : String) (now : Nat) : St × Bool :=
  let adminEmail := lowerStr envEmail
  match st.admins.find? (fun u => u.email == adminEmail) with
  | some _ => (st, false)
  | none =>
    let adminUser : Account :=
      Account.mk newId envName adminEmail (bcryptHash envPassword)
        Role.admin now []
    (St.mk st.users (st.admins ++ [adminUser]) st.sessions, true)

/-- Seed-admin configuration (`ADMIN_EMAIL`, `ADMIN_PASSWORD`,
`ADMIN_NAME` with their defaults), fixed for a deployment. -/
structure SeedCfg where
  email : String
  password : String
  name : String
deriving Repr, DecidableEq

/-- States reachable through the service's own operations under a fixed
seed configuration.  A process run starts by seeding (the server only
accepts traffic after `ensureSeedAdmin`), so the base state is the
seeded empty store; a restart keeps the durable partitions, clears the
in-memory sessions and runs the seeder again. -/
inductive Reachable (cfg : SeedCfg) : St → Prop
  | init (i : String) (t : Nat) :
      Reachable cfg
        (ensureSeedAdmin (St.mk [] [] []) cfg.email cfg.password cfg.name
          i t).1
  | restart (st : St) (i : String) (t : Nat) :
      Reachable cfg st →
      Reachable cfg
        (ensureSeedAdmin (St.mk st.users st.admins []) cfg.email
          cfg.password cfg.name i t).1
  | registerStep (st : St) (n e p i tok : String) (t : Nat) :
      Reachable cfg st → Reachable cfg (register st n e p i tok t).2
  | loginStep (st : St) (e p tok : String) (t : Nat) :
      Reachable cfg st → Reachable cfg (login st e p tok t).2
  | adminCreateStep (st : St) (hdr n e p i : String) (r : Option Role)
      (t : Nat) :
      Reachable cfg st →
      Reachable cfg (adminCreateUser st hdr n e p r i t).2
  | createTodoStep (st : St) (hdr label i : String) (t : Nat) :
      Reachable cfg st → Reachable cfg (createTodo st hdr label i t).2
  | toggleTodoStep (st : St) (hdr tid : String) (d : Option Bool) :
      Reachable cfg st → Reachable cfg (toggleTodo st hdr tid d).2
  | deleteTodoStep (st : St) (hdr tid : String) :
      Reachable cfg st → Reachable cfg (deleteTodo st hdr tid).2.1

/-- The emails of a list of accounts, in order. -/
def emailsOf (l : List Account) : List String :=
  l.map (fun a => a.email)

/-- All stored emails of a state: users partition then admins
partition. -/
def allEmails (st : St) : List String :=
  emailsOf st.users ++ emailsOf st.admins

/-- Every stored email is already lower-cased. -/
def lowerInv (st : St) : Prop :=
  ∀ e ∈ allEmails st, lowerStr e = e

/-- A case-normalized email appears in at most one account across the
union of both partitions. -/
def uniqueInv (st : St) : Prop :=
  ((allEmails st).map lowerStr).Nodup

/-- The lower-cased configured seed email is present in the admin
partition. -/
def seedOK (cfg : SeedCfg) (st : St) : Prop :=
  lowerStr cfg.email ∈ emailsOf st.admins

/-- The todo list the state stores for the account with the given id in
the given partition, then the task with the given id in it. -/
def taskOf (st : St) (r : Role) (uid tid : String) : Option Todo :=
  match (partitionOf st r).find? (fun a => a.id == uid) with
  | none => none
  | some a => a.todos.find? (fun t => t.id == tid)

/-- Evaluation of `Char.ofNat` at a valid code point. -/
theorem toNat_ofNat_valid (n : Nat) (h : n.isValidChar) :
    (Char.ofNat n).toNat = n := by
  unfold Char.ofNat
  rw [dif_pos h]
  rfl

/-- ASCII lowercasing is idempotent on characters. -/
theorem lowerChar_idem (c : Char) : lowerChar (lowerChar c) = lowerChar c := by
  by_cases h : 65 ≤ c.toNat ∧ c.toNat ≤ 90
  · have h1 : lowerChar c = Char.ofNat (c.toNat + 32) := by
      unfold lowerChar
      rw [if_pos h]
    have hv : Nat.isValidChar (c.toNat + 32) := Or.inl (by omega)
    have ht : (Char.ofNat (c.toNat + 32)).toNat = c.toNat + 32 :=
      toNat_ofNat_valid _ hv
    rw [h1]
    unfold lowerChar
    rw [if_neg (by rw [ht]; omega)]
  · have h1 : lowerChar c = c := by
      unfold lowerChar
      rw [if_neg h]
    rw [h1, h1]

/-- ASCII lowercasing is idempotent on strings. -/
theorem lowerStr_idem (s : String) : lowerStr (lowerStr s) = lowerStr s := by
  show String.mk ((s.data.map lowerChar).map lowerChar) =
    String.mk (s.data.map lowerChar)
  rw [List.map_map]
  congr 1
  apply List.map_congr_left
  intro c _
  exact lowerChar_idem c

/-- Updating one account's todos does not change the email column. -/
theorem emailsOf_updateFirstById (l : List Account) (uid : String)
    (f : Account → Account) (hf : ∀ a, (f a).email = a.email) :
    emailsOf (updateFirstById l uid f) = emailsOf l := by
  induction l with
  | nil => rfl
  | cons a rest ih =>
    by_cases h : (a.id == uid) = true
    · simp only [updateFirstById, if_pos h, emailsOf, List.map_cons, hf a]
    · simp only [updateFirstById, if_neg h, emailsOf, List.map_cons]
      have ih' := ih
      simp only [emailsOf] at ih'
      rw [ih']

/-- Updating the account that `find?` locates is visible to a later
`find?` with the same key. -/
theorem find?_updateFirstById (l : List Account) (uid : String)
    (f : Account → Account) (u : Account)
    (hf : ∀ a, (f a).id = a.id)
    (h : l.find? (fun a => a.id == uid) = some u) :
    (updateFirstById l uid f).find? (fun a => a.id == uid) = some (f u) := by
  induction l with
  | nil => simp at h
  | cons a rest ih =>
    by_cases hid : (a.id == uid) = true
    · simp only [List.find?_cons, hid] at h
      cases h
      have hfid : ((f u).id == uid) = true := by
        rw [hf u]
        exact hid
      simp only [updateFirstById, if_pos hid]
      simp only [List.find?_cons, hfid]
    · have hidf : (a.id == uid) = false := by simpa using hid
      simp only [List.find?_cons, hidf] at h
      simp only [updateFirstById, if_neg hid]
      simp only [List.find?_cons, hidf]
      exact ih h

/-- Two successive first-match updates with the same key compose. -/
theorem updateFirstById_compose (l : List Account) (uid : String)
    (f g : Account → Account) (hf : ∀ a, (f a).id = a.id) :
    updateFirstById (updateFirstById l uid f) uid g =
      updateFirstById l uid (fun a => g (f a)) := by
  induction l with
  | nil => rfl
  | cons a rest ih =>
    by_cases hid : (a.id == uid) = true
    · have hfid : ((f a).id == uid) = true := by rw [hf a]; exact hid
      simp only [updateFirstById, if_pos hid, if_pos hfid]
    · simp only [updateFirstById, if_neg hid]
      rw [ih]

/-- A first-match update by a function that fixes every element is the
identity. -/
theorem updateFirstById_fix (l : List Account) (uid : String)
    (f : Account → Account) (hfix : ∀ a, f a = a) :
    updateFirstById l uid f = l := by
  induction l with
  | nil => rfl
  | cons a rest ih =>
    by_cases hid : (a.id == uid) = true
    · simp only [updateFirstById, if_pos hid, hfix a]
    · simp only [updateFirstById, if_neg hid]
      rw [ih]

/-- Setting the done flag of the located todo is visible to a later
`find?` with the same key. -/
theorem find?_toggleFirstTodo (todos : List Todo) (tid : String)
    (d : Option Bool) (t : Todo)
    (h : todos.find? (fun x => x.id == tid) = some t) :
    (toggleFirstTodo todos tid d).find? (fun x => x.id == tid) =
      some (Todo.mk t.id t.label (d.getD (!t.done)) t.createdAt) := by
  induction todos with
  | nil => simp at h
  | cons x rest ih =>
    by_cases hid : (x.id == tid) = true
    · simp only [List.find?_cons, hid] at h
      cases h
      simp only [toggleFirstTodo, if_pos hid]
      simp only [List.find?_cons, hid]
    · have hidf : (x.id == tid) = false := by simpa using hid
      simp only [List.find?_cons, hidf] at h
      simp only [toggleFirstTodo, if_neg hid]
      simp only [List.find?_cons, hidf]
      exact ih h

/-- Toggling with an explicit value twice equals toggling once. -/
theorem toggleFirstTodo_explicit_idem (todos : List Todo) (tid : String)
    (b : Bool) :
    toggleFirstTodo (toggleFirstTodo todos tid (some b)) tid (some b) =
      toggleFirstTodo todos tid (some b) := by
  induction todos with
  | nil => rfl
  | cons x rest ih =>
    by_cases hid : (x.id == tid) = true
    · simp only [toggleFirstTodo, if_pos hid]
      rfl
    · simp only [toggleFirstTodo, if_neg hid]
      rw [ih]

/-- The partition writer never touches the session map. -/
theorem writerFor_sessions (r : Role) (l : List Account) (st : St) :
    (writerFor r l st).sessions = st.sessions := by
  cases r <;> rfl

/-- The partition writer overwrites exactly its own partition. -/
theorem partitionOf_writerFor_same (r : Role) (l : List Account) (st : St) :
    partitionOf (writerFor r l st) r = l := by
  cases r <;> rfl

/-- The partition writer leaves the other partition unchanged. -/
theorem partitionOf_writerFor_other (r : Role) (l : List Account) (st : St) :
    partitionOf (writerFor r l st) r.other = partitionOf st r.other := by
  cases r <;> rfl

/-- Writing the same partition twice keeps the last write. -/
theorem writerFor_writerFor (r : Role) (l l' : List Account) (st : St) :
    writerFor r l (writerFor r l' st) = writerFor r l st := by
  cases r <;> rfl

/-- Inversion of a successful pass through the authorization gate. -/
theorem requireAuth_ok_inv (st : St) (hdr : String) (ra : Bool)
    (u : Account) (l : List Account) (r : Role)
    (h : requireAuth st hdr ra = AuthResult.ok u l r) :
    hasBearer hdr = true ∧
    ∃ s, getSession st.sessions (bearerToken hdr) = some s ∧
      s.role = r ∧ l = partitionOf st r ∧
      (partitionOf st r).find? (fun a => a.id == s.userId) = some u ∧
      u.id = s.userId ∧ (ra = true → r = Role.admin) := by
  unfold requireAuth at h
  split at h
  · exact absurd h (by simp)
  next hb =>
    split at h
    · exact absurd h (by simp)
    next s hget =>
      split at h
      · exact absurd h (by simp)
      next user hfind =>
        have hbeq := List.find?_some hfind
        split at h
        · exact absurd h (by simp)
        next hforb =>
          injection h with h1 h2 h3
          subst h1
          subst h2
          subst h3
          refine ⟨by simpa using hb, s, hget, rfl, rfl, hfind, ?_, ?_⟩
          · exact eq_of_beq hbeq
          · intro hra
            by_contra hne
            exact hforb ⟨hra, hne⟩

/-- Emails of an appended account list. -/
theorem emailsOf_append (l1 l2 : List Account) :
    emailsOf (l1 ++ l2) = emailsOf l1 ++ emailsOf l2 :=
  List.map_append _ l1 l2

/-- Seeding the empty store appends exactly one admin account carrying
the lower-cased configured email. -/
theorem ensureSeedAdmin_empty (eE eP eN i : String) (t : Nat) :
    ensureSeedAdmin (St.mk [] [] []) eE eP eN i t =
      (St.mk []
        [Account.mk i eN (lowerStr eE) (bcryptHash eP) Role.admin t []] [],
        true) :=
  rfl

/-- When some stored admin email exactly equals the lower-cased
configured email, the seeder is a no-op. -/
theorem ensureSeedAdmin_mem (st : St) (eE eP eN i : String) (t : Nat)
    (hmem : lowerStr eE ∈ emailsOf st.admins) :
    ensureSeedAdmin st eE eP eN i t = (st, false) := by
  have hx : ∃ a ∈ st.admins, a.email = lowerStr eE := by
    simpa [emailsOf, List.mem_map] using hmem
  obtain ⟨a, ha, hae⟩ := hx
  cases hfind : st.admins.find? (fun u => u.email == lowerStr eE) with
  | none =>
    have := List.find?_eq_none.mp hfind a ha
    simp [hae] at this
  | some b =>
    unfold ensureSeedAdmin
    simp only [hfind]

/-- When no stored admin email exactly equals the lower-cased
configured email, the seeder appends one admin account and persists. -/
theorem ensureSeedAdmin_absent (st : St) (eE eP eN i : String) (t : Nat)
    (habs : ∀ a ∈ st.admins, a.email ≠ lowerStr eE) :
    ensureSeedAdmin st eE eP eN i t =
      (St.mk st.users
        (st.admins ++
          [Account.mk i eN (lowerStr eE) (bcryptHash eP) Role.admin t []])
        st.sessions, true) := by
  have hfind : st.admins.find? (fun u => u.email == lowerStr eE) = none :=
    List.find?_eq_none.mpr (fun a ha => by simpa using habs a ha)
  unfold ensureSeedAdmin
  simp only [hfind]

/-- Login never changes the durable partitions. -/
theorem login_partitions (st : St) (e p tok : String) (t : Nat) :
    (login st e p tok t).2.users = st.users ∧
    (login st e p tok t).2.admins = st.admins := by
  unfold login
  split
  · exact ⟨rfl, rfl⟩
  · split
    · split
      · exact ⟨rfl, rfl⟩
      · exact ⟨rfl, rfl⟩
    · split
      · split
        · exact ⟨rfl, rfl⟩
        · exact ⟨rfl, rfl⟩
      · exact ⟨rfl, rfl⟩

/-- Creating a todo never changes the email column of either
partition. -/
theorem createTodo_emails (st : St) (hdr label i : String) (t : Nat) :
    emailsOf (createTodo st hdr label i t).2.users = emailsOf st.users ∧
    emailsOf (createTodo st hdr label i t).2.admins = emailsOf st.admins := by
  cases hA : requireAuth st hdr false with
  | err e2 =>
    simp only [createTodo, hA]
    refine ⟨?_, ?_⟩ <;> first | rfl | trivial
  | ok user list role =>
    obtain ⟨-, s, -, hrole, hl, hfind, -, -⟩ :=
      requireAuth_ok_inv _ _ _ _ _ _ hA
    simp only [createTodo, hA]
    split
    · exact ⟨rfl, rfl⟩
    · subst hl
      cases role with
      | user =>
        constructor
        · exact emailsOf_updateFirstById _ _ _ (fun a => rfl)
        · rfl
      | admin =>
        constructor
        · rfl
        · exact emailsOf_updateFirstById _ _ _ (fun a => rfl)

/-- Toggling a todo never changes the email column of either
partition. -/
theorem toggleTodo_emails (st : St) (hdr tid : String) (d : Option Bool) :
    emailsOf (toggleTodo st hdr tid d).2.users = emailsOf st.users ∧
    emailsOf (toggleTodo st hdr tid d).2.admins = emailsOf st.admins := by
  cases hA : requireAuth st hdr false with
  | err e2 =>
    simp only [toggleTodo, hA]
    refine ⟨?_, ?_⟩ <;> first | rfl | trivial
  | ok user list role =>
    obtain ⟨-, s, -, hrole, hl, hfind, -, -⟩ :=
      requireAuth_ok_inv _ _ _ _ _ _ hA
    simp only [toggleTodo, hA]
    split
    · exact ⟨rfl, rfl⟩
    · subst hl
      cases role with
      | user =>
        constructor
        · exact emailsOf_updateFirstById _ _ _ (fun a => rfl)
        · rfl
      | admin =>
        constructor
        · rfl
        · exact emailsOf_updateFirstById _ _ _ (fun a => rfl)

/-- Deleting a todo never changes the email column of either
partition. -/
theorem deleteTodo_emails (st : St) (hdr tid : String) :
    emailsOf (deleteTodo st hdr tid).2.1.users = emailsOf st.users ∧
    emailsOf (deleteTodo st hdr tid).2.1.admins = emailsOf st.admins := by
  cases hA : requireAuth st hdr false with
  | err e2 =>
    simp only [deleteTodo, hA]
    refine ⟨?_, ?_⟩ <;> first | rfl | trivial
  | ok user list role =>
    obtain ⟨-, s, -, hrole, hl, hfind, -, -⟩ :=
      requireAuth_ok_inv _ _ _ _ _ _ hA
    simp only [deleteTodo, hA]
    split
    · exact ⟨rfl, rfl⟩
    · subst hl
      cases role with
      | user =>
        constructor
        · exact emailsOf_updateFirstById _ _ _ (fun a => rfl)
        · rfl
      | admin =>
        constructor
        · rfl
        · exact emailsOf_updateFirstById _ _ _ (fun a => rfl)

/-- The three store invariants transfer along states with the same
email columns. -/
theorem inv_transfer (cfg : SeedCfg) (st st' : St)
    (hu : emailsOf st'.users = emailsOf st.users)
    (ha : emailsOf st'.admins = emailsOf st.admins)
    (ih : lowerInv st ∧ uniqueInv st ∧ seedOK cfg st) :
    lowerInv st' ∧ uniqueInv st' ∧ seedOK cfg st' := by
  obtain ⟨h1, h2, h3⟩ := ih
  have he : allEmails st' = allEmails st := by
    unfold allEmails
    rw [hu, ha]
  refine ⟨?_, ?_, ?_⟩
  · unfold lowerInv
    rw [he]
    exact h1
  · unfold uniqueInv
    rw [he]
    exact h2
  · unfold seedOK
    rw [ha]
    exact h3

/-- Pointwise characterization of the lower-case email invariant. -/
theorem lowerInv_iff (st : St) :
    lowerInv st ↔ ((∀ a ∈ st.users, lowerStr a.email = a.email) ∧
      (∀ a ∈ st.admins, lowerStr a.email = a.email)) := by
  constructor
  · intro h
    constructor
    · intro a haa
      refine h a.email ?_
      unfold allEmails emailsOf
      exact List.mem_append.mpr (Or.inl (List.mem_map.mpr ⟨a, haa, rfl⟩))
    · intro a haa
      refine h a.email ?_
      unfold allEmails emailsOf
      exact List.mem_append.mpr (Or.inr (List.mem_map.mpr ⟨a, haa, rfl⟩))
  · intro hpair em hem
    obtain ⟨h1, h2⟩ := hpair
    unfold allEmails emailsOf at hem
    rcases List.mem_append.mp hem with hm | hm
    · obtain ⟨a, haa, rfl⟩ := List.mem_map.mp hm
      exact h1 a haa
    · obtain ⟨a, haa, rfl⟩ := List.mem_map.mp hm
      exact h2 a haa

/-- Appending a fresh account at the end of the users partition keeps
the lowered email column duplicate-free. -/
theorem nodupLow_insert_mid (us ads : List Account) (x : Account)
    (hu : ∀ a ∈ us, lowerStr a.email ≠ lowerStr x.email)
    (ha : ∀ a ∈ ads, lowerStr a.email ≠ lowerStr x.email)
    (h : ((emailsOf us ++ emailsOf ads).map lowerStr).Nodup) :
    ((emailsOf (us ++ [x]) ++ emailsOf ads).map lowerStr).Nodup := by
  rw [emailsOf_append]
  rw [show emailsOf [x] = [x.email] from rfl]
  rw [List.map_append, List.map_append]
  rw [show List.map lowerStr [x.email] = [lowerStr x.email] from rfl]
  rw [List.append_assoc]
  rw [show ([lowerStr x.email] ++ (emailsOf ads).map lowerStr) =
    lowerStr x.email :: (emailsOf ads).map lowerStr from rfl]
  rw [List.nodup_middle, List.nodup_cons]
  constructor
  · intro hmem
    rw [← List.map_append] at hmem
    obtain ⟨em, hem, hlow⟩ := List.mem_map.mp hmem
    rcases List.mem_append.mp hem with h1 | h1
    · obtain ⟨a, haa, rfl⟩ := List.mem_map.mp h1
      exact hu a haa hlow
    · obtain ⟨a, haa, rfl⟩ := List.mem_map.mp h1
      exact ha a haa hlow
  · rw [← List.map_append]
    exact h

/-- Appending a fresh account at the end of the admins partition keeps
the lowered email column duplicate-free. -/
theorem nodupLow_insert_end (us ads : List Account) (x : Account)
    (hu : ∀ a ∈ us, lowerStr a.email ≠ lowerStr x.email)
    (ha : ∀ a ∈ ads, lowerStr a.email ≠ lowerStr x.email)
    (h : ((emailsOf us ++ emailsOf ads).map lowerStr).Nodup) :
    ((emailsOf us ++ emailsOf (ads ++ [x])).map lowerStr).Nodup := by
  rw [emailsOf_append]
  rw [show emailsOf [x] = [x.email] from rfl]
  rw [← List.append_assoc]
  rw [List.map_append]
  rw [show List.map lowerStr [x.email] = [lowerStr x.email] from rfl]
  rw [List.nodup_middle, List.nodup_cons]
  constructor
  · intro hmem
    rw [List.append_nil] at hmem
    obtain ⟨em, hem, hlow⟩ := List.mem_map.mp hmem
    rcases List.mem_append.mp hem with h1 | h1
    · obtain ⟨a, haa, rfl⟩ := List.mem_map.mp h1
      exact hu a haa hlow
    · obtain ⟨a, haa, rfl⟩ := List.mem_map.mp h1
      exact ha a haa hlow
  · rw [List.append_nil]
    exact h

/-- Registration with an ill-shaped payload fails early with a
validation error and no state change. -/
theorem register_invalid (st : St) (n e p i tok : String) (t : Nat)
    (hs : registerSchemaOk n e p = false) :
    register st n e p i tok t = (RegisterResp.err ApiErr.validationError, st) := by
  unfold register
  rw [if_pos hs]

/-- Registration rejects with `email-in-use` when the case-insensitive
scan of either partition hits, leaving the state unchanged. -/
theorem register_conflict (st : St) (n e p i tok : String) (t : Nat)
    (hs : registerSchemaOk n e p = true)
    (hg : ((st.users.find? (fun u => lowerStr u.email == lowerStr e)).isSome
      || (st.admins.find? (fun a => lowerStr a.email == lowerStr e)).isSome)
      = true) :
    register st n e p i tok t = (RegisterResp.err ApiErr.emailInUse, st) := by
  unfold register
  rw [if_neg (by simp [hs]), if_pos hg]

/-- Successful registration appends one user account with lower-cased
email and trimmed name, and issues a session. -/
theorem register_success_state (st : St) (n e p i tok : String) (t : Nat)
    (hs : registerSchemaOk n e p = true)
    (hu : st.users.find? (fun u => lowerStr u.email == lowerStr e) = none)
    (ha : st.admins.find? (fun a => lowerStr a.email == lowerStr e) = none) :
    register st n e p i tok t =
      (RegisterResp.created tok
        (scrubMember
          (Account.mk i (jsTrim n) (lowerStr e) (bcryptHash p) Role.user t
            [])),
        St.mk
          (st.users ++
            [Account.mk i (jsTrim n) (lowerStr e) (bcryptHash p) Role.user t
              []])
          st.admins
          ((tok, SessionEntry.mk i Role.user t) :: st.sessions)) := by
  unfold register
  rw [if_neg (by simp [hs]), if_neg (by simp [hu, ha])]

/-- Admin provisioning propagates an authorization-gate error and
leaves the state unchanged. -/
theorem adminCreate_auth_err (st : St) (hdr n e p i : String)
    (r : Option Role) (t : Nat) (e2 : ApiErr)
    (hA : requireAuth st hdr true = AuthResult.err e2) :
    adminCreateUser st hdr n e p r i t = (AdminCreateResp.err e2, st) := by
  simp only [adminCreateUser, hA]

/-- Admin provisioning with an ill-shaped payload fails with a
validation error and no state change. -/
theorem adminCreate_invalid (st : St) (hdr n e p i : String)
    (r : Option Role) (t : Nat) (u0 : Account) (l0 : List Account)
    (r0 : Role)
    (hA : requireAuth st hdr true = AuthResult.ok u0 l0 r0)
    (hs : registerSchemaOk n e p = false) :
    adminCreateUser st hdr n e p r i t =
      (AdminCreateResp.err ApiErr.validationError, st) := by
  simp only [adminCreateUser, hA]
  rw [if_pos hs]

/-- Admin provisioning rejects with `email-in-use` when the exact scan
of either partition against the lower-cased email hits, leaving the
state unchanged. -/
theorem adminCreate_conflict (st : St) (hdr n e p i : String)
    (r : Option Role) (t : Nat) (u0 : Account) (l0 : List Account)
    (r0 : Role)
    (hA : requireAuth st hdr true = AuthResult.ok u0 l0 r0)
    (hs : registerSchemaOk n e p = true)
    (hg : ((st.users.find? (fun u => u.email == lowerStr e)).isSome
      || (st.admins.find? (fun a => a.email == lowerStr e)).isSome)
      = true) :
    adminCreateUser st hdr n e p r i t =
      (AdminCreateResp.err ApiErr.emailInUse, st) := by
  simp only [adminCreateUser, hA]
  rw [if_neg (by simp [hs]), if_pos hg]

/-- Successful admin provisioning with default or explicit user role
appends one user account. -/
theorem adminCreate_success_user (st : St) (hdr n e p i : String)
    (r : Option Role) (t : Nat) (u0 : Account) (l0 : List Account)
    (r0 : Role)
    (hA : requireAuth st hdr true = AuthResult.ok u0 l0 r0)
    (hrg : r.getD Role.user = Role.user)
    (hs : registerSchemaOk n e p = true)
    (hu : st.users.find? (fun u => u.email == lowerStr e) = none)
    (ha : st.admins.find? (fun a => a.email == lowerStr e) = none) :
    adminCreateUser st hdr n e p r i t =
      (AdminCreateResp.created
        (scrubMember
          (Account.mk i (jsTrim n) (lowerStr e) (bcryptHash p) Role.user t
            [])),
        St.mk
          (st.users ++
            [Account.mk i (jsTrim n) (lowerStr e) (bcryptHash p) Role.user t
              []])
          st.admins st.sessions) := by
  simp only [adminCreateUser, hA]
  rw [if_neg (by simp [hs]), if_neg (by simp [hu, ha]), hrg]

/-- Successful admin provisioning with explicit admin role appends one
admin account. -/
theorem adminCreate_success_admin (st : St) (hdr n e p i : String)
    (r : Option Role) (t : Nat) (u0 : Account) (l0 : List Account)
    (r0 : Role)
    (hA : requireAuth st hdr true = AuthResult.ok u0 l0 r0)
    (hrg : r.getD Role.user = Role.admin)
    (hs : registerSchemaOk n e p = true)
    (hu : st.users.find? (fun u => u.email == lowerStr e) = none)
    (ha : st.admins.find? (fun a => a.email == lowerStr e) = none) :
    adminCreateUser st hdr n e p r i t =
      (AdminCreateResp.created
        (scrubMember
          (Account.mk i (jsTrim n) (lowerStr e) (bcryptHash p) Role.admin t
            [])),
        St.mk st.users
          (st.admins ++
            [Account.mk i (jsTrim n) (lowerStr e) (bcryptHash p) Role.admin
              t []])
          st.sessions) := by
  simp only [adminCreateUser, hA]
  rw [if_neg (by simp [hs]), if_neg (by simp [hu, ha]), hrg]

/-- Every reachable state stores only lower-cased emails, keeps the
lowered email column duplicate-free across both partitions, and keeps
the seed admin present. -/
theorem reachable_inv (cfg : SeedCfg) (st : St) (h : Reachable cfg st) :
    lowerInv st ∧ uniqueInv st ∧ seedOK cfg st := by
  induction h with
  | init i t =>
    rw [ensureSeedAdmin_empty]
    refine ⟨?_, ?_, ?_⟩
    · rw [lowerInv_iff]
      refine ⟨?_, ?_⟩
      · intro a haa
        simp at haa
      · intro a haa
        have h2 : a = Account.mk i cfg.name (lowerStr cfg.email)
            (bcryptHash cfg.password) Role.admin t [] := by simpa using haa
        rw [h2]
        exact lowerStr_idem cfg.email
    · simp [uniqueInv, allEmails, emailsOf]
    · simp [seedOK, emailsOf]
  | restart st i t hr ih =>
    rw [ensureSeedAdmin_mem _ _ _ _ _ _
      (show lowerStr cfg.email ∈
        emailsOf (St.mk st.users st.admins []).admins from ih.2.2)]
    exact ⟨ih.1, ih.2.1, ih.2.2⟩
  | registerStep st n e p i tok t hr ih =>
    by_cases hs : registerSchemaOk n e p = false
    · rw [register_invalid st n e p i tok t hs]
      exact ih
    · have hs' : registerSchemaOk n e p = true := by simpa using hs
      by_cases hg :
          ((st.users.find? (fun u => lowerStr u.email == lowerStr e)).isSome
            || (st.admins.find?
              (fun a => lowerStr a.email == lowerStr e)).isSome) = true
      · rw [register_conflict st n e p i tok t hs' hg]
        exact ih
      · simp only [Bool.or_eq_true, not_or,
          Option.not_isSome_iff_eq_none] at hg
        obtain ⟨hu, ha⟩ := hg
        rw [register_success_state st n e p i tok t hs' hu ha]
        obtain ⟨hlow, huniq, hseed⟩ := ih
        obtain ⟨hl1, hl2⟩ := (lowerInv_iff st).mp hlow
        have hu' : ∀ a ∈ st.users, lowerStr a.email ≠ lowerStr e := by
          intro a haa
          have hx := List.find?_eq_none.mp hu a haa
          simpa using hx
        have ha' : ∀ a ∈ st.admins, lowerStr a.email ≠ lowerStr e := by
          intro a haa
          have hx := List.find?_eq_none.mp ha a haa
          simpa using hx
        refine ⟨?_, ?_, ?_⟩
        · rw [lowerInv_iff]
          refine ⟨?_, ?_⟩
          · intro a haa
            rcases List.mem_append.mp haa with h1 | h1
            · exact hl1 a h1
            · have h2 : a = Account.mk i (jsTrim n) (lowerStr e)
                  (bcryptHash p) Role.user t [] := by simpa using h1
              rw [h2]
              exact lowerStr_idem e
          · exact hl2
        · exact nodupLow_insert_mid st.users st.admins _
            (by intro a haa; simpa [lowerStr_idem] using hu' a haa)
            (by intro a haa; simpa [lowerStr_idem] using ha' a haa) huniq
        · exact hseed
  | loginStep st e p tok t hr ih =>
    obtain ⟨hu, ha⟩ := login_partitions st e p tok t
    exact inv_transfer cfg st _ (by rw [hu]) (by rw [ha]) ih
  | adminCreateStep st hdr n e p i r t hr ih =>
    cases hA : requireAuth st hdr true with
    | err e2 =>
      rw [adminCreate_auth_err st hdr n e p i r t e2 hA]
      exact ih
    | ok u0 l0 r0 =>
      by_cases hs : registerSchemaOk n e p = false
      · rw [adminCreate_invalid st hdr n e p i r t u0 l0 r0 hA hs]
        exact ih
      · have hs' : registerSchemaOk n e p = true := by simpa using hs
        by_cases hg :
            ((st.users.find? (fun u => u.email == lowerStr e)).isSome
              || (st.admins.find?
                (fun a => a.email == lowerStr e)).isSome) = true
        · rw [adminCreate_conflict st hdr n e p i r t u0 l0 r0 hA hs' hg]
          exact ih
        · simp only [Bool.or_eq_true, not_or,
            Option.not_isSome_iff_eq_none] at hg
          obtain ⟨hu, ha⟩ := hg
          obtain ⟨hlow, huniq, hseed⟩ := ih
          obtain ⟨hl1, hl2⟩ := (lowerInv_iff st).mp hlow
          have hu2 : ∀ a ∈ st.users, lowerStr a.email ≠ lowerStr e := by
            intro a haa
            have hx := List.find?_eq_none.mp hu a haa
            rw [hl1 a haa]
            simpa using hx
          have ha2 : ∀ a ∈ st.admins, lowerStr a.email ≠ lowerStr e := by
            intro a haa
            have hx := List.find?_eq_none.mp ha a haa
            rw [hl2 a haa]
            simpa using hx
          cases hrg : r.getD Role.user with
          | user =>
            rw [adminCreate_success_user st hdr n e p i r t u0 l0 r0 hA hrg
              hs' hu ha]
            refine ⟨?_, ?_, ?_⟩
            · rw [lowerInv_iff]
              refine ⟨?_, ?_⟩
              · intro a haa
                rcases List.mem_append.mp haa with h1 | h1
                · exact hl1 a h1
                · have h2 : a = Account.mk i (jsTrim n) (lowerStr e)
                      (bcryptHash p) Role.user t [] := by simpa using h1
                  rw [h2]
                  exact lowerStr_idem e
              · exact hl2
            · exact nodupLow_insert_mid st.users st.admins _
                (by intro a haa; simpa [lowerStr_idem] using hu2 a haa)
                (by intro a haa; simpa [lowerStr_idem] using ha2 a haa)
                huniq
            · exact hseed
          | admin =>
            rw [adminCreate_success_admin st hdr n e p i r t u0 l0 r0 hA hrg
              hs' hu ha]
            refine ⟨?_, ?_, ?_⟩
            · rw [lowerInv_iff]
              refine ⟨?_, ?_⟩
              · exact hl1
              · intro a haa
                rcases List.mem_append.mp haa with h1 | h1
                · exact hl2 a h1
                · have h2 : a = Account.mk i (jsTrim n) (lowerStr e)
                      (bcryptHash p) Role.admin t [] := by simpa using h1
                  rw [h2]
                  exact lowerStr_idem e
            · exact nodupLow_insert_end st.users st.admins _
                (by intro a haa; simpa [lowerStr_idem] using hu2 a haa)
                (by intro a haa; simpa [lowerStr_idem] using ha2 a haa)
                huniq
            · show lowerStr cfg.email ∈ emailsOf (st.admins ++
                [Account.mk i (jsTrim n) (lowerStr e) (bcryptHash p)
                  Role.admin t []])
              rw [emailsOf_append]
              exact List.mem_append.mpr (Or.inl hseed)
  | createTodoStep st hdr label i t hr ih =>
    obtain ⟨hu, ha⟩ := createTodo_emails st hdr label i t
    exact inv_transfer cfg st _ hu ha ih
  | toggleTodoStep st hdr tid d hr ih =>
    obtain ⟨hu, ha⟩ := toggleTodo_emails st hdr tid d
    exact inv_transfer cfg st _ hu ha ih
  | deleteTodoStep st hdr tid hr ih =>
    obtain ⟨hu, ha⟩ := deleteTodo_emails st hdr tid
    exact inv_transfer cfg st _ hu ha ih

/-- The default seed configuration from the source's environment
fallbacks. -/
def cfg0 : SeedCfg :=
  SeedCfg.mk "owner@winery.board" "wineryadmin" "Builder"

/-- The durable state right after first bootstrap on an empty store. -/
def seededSt : St :=
  (ensureSeedAdmin (St.mk [] [] []) cfg0.email cfg0.password cfg0.name
    "a1" 0).1

/-- A sample user account with one task. -/
def wAcct : Account :=
  Account.mk "u1" "Ada" "ada@x.com" (Hash.mk "secret1") Role.user 0
    [Todo.mk "t1" "milk" false 0]

/-- A sample admin account. -/
def wAdmin : Account :=
  Account.mk "a1" "Root" "root@x.com" (Hash.mk "passw0rd") Role.admin 0 []

/-- A sample state with one logged-in user. -/
def wSt : St :=
  St.mk [wAcct] [] [("tok1", SessionEntry.mk "u1" Role.user 0)]

/-- A sample state with a logged-in user and a logged-in admin. -/
def wStA : St :=
  St.mk [wAcct] [wAdmin]
    [("tokA", SessionEntry.mk "a1" Role.admin 0),
      ("tok1", SessionEntry.mk "u1" Role.user 0)]

/-- Claim C10: every account record created by registration, admin
provisioning or bootstrap seeding stores its email lower-cased, so in
every state reachable through the service's operations all stored
emails are lower-case. -/
theorem claim_C10 (cfg : SeedCfg) (st : St) (h : Reachable cfg st) :
    lowerInv st :=
  (reachable_inv cfg st h).1

/-- Witness for C10 at a concrete reachable state: the seeded store
after one registration. -/
theorem claim_C10_witness :
    lowerInv (register seededSt "Ada" "Ada@X.com" "secret1" "u1" "tok1"
      5).2 :=
  claim_C10 cfg0 _
    (Reachable.registerStep seededSt "Ada" "Ada@X.com" "secret1" "u1"
      "tok1" 5 (Reachable.init "a1" 0))

/-- Claim C1: in every reachable durable state a case-normalized email
appears in at most one account across the union of both partitions;
registration and admin provisioning reject with `email-in-use` when the
requested email already exists case-insensitively in either partition,
returning with the state unchanged (so the check precedes any append or
persist). -/
theorem claim_C1 (cfg : SeedCfg) (st : St) (h : Reachable cfg st) :
    uniqueInv st ∧
    (∀ n e p i tok t, registerSchemaOk n e p = true →
      (∃ a, (a ∈ st.users ∨ a ∈ st.admins) ∧
        lowerStr a.email = lowerStr e) →
      register st n e p i tok t =
        (RegisterResp.err ApiErr.emailInUse, st)) ∧
    (∀ hdr n e p r i t u0 l0 r0,
      requireAuth st hdr true = AuthResult.ok u0 l0 r0 →
      registerSchemaOk n e p = true →
      (∃ a, (a ∈ st.users ∨ a ∈ st.admins) ∧
        lowerStr a.email = lowerStr e) →
      adminCreateUser st hdr n e p r i t =
        (AdminCreateResp.err ApiErr.emailInUse, st)) := by
  obtain ⟨hlow, huniq, hseed⟩ := reachable_inv cfg st h
  obtain ⟨hl1, hl2⟩ := (lowerInv_iff st).mp hlow
  refine ⟨huniq, ?_, ?_⟩
  · intro n e p i tok t hs hex
    obtain ⟨a, hmem, hlowa⟩ := hex
    have hg : ((st.users.find?
          (fun u => lowerStr u.email == lowerStr e)).isSome
        || (st.admins.find?
          (fun a => lowerStr a.email == lowerStr e)).isSome) = true := by
      rcases hmem with hmu | hma
      · have h1 : (st.users.find?
            (fun u => lowerStr u.email == lowerStr e)).isSome = true :=
          List.find?_isSome.mpr ⟨a, hmu, by simp [hlowa]⟩
        simp [h1]
      · have h1 : (st.admins.find?
            (fun u => lowerStr u.email == lowerStr e)).isSome = true :=
          List.find?_isSome.mpr ⟨a, hma, by simp [hlowa]⟩
        simp [h1]
    exact register_conflict st n e p i tok t hs hg
  · intro hdr n e p r i t u0 l0 r0 hA hs hex
    obtain ⟨a, hmem, hlowa⟩ := hex
    have hg : ((st.users.find? (fun u => u.email == lowerStr e)).isSome
        || (st.admins.find?
          (fun a => a.email == lowerStr e)).isSome) = true := by
      rcases hmem with hmu | hma
      · have hae : a.email = lowerStr e := by
          rw [← hl1 a hmu]
          exact hlowa
        have h1 : (st.users.find?
            (fun u => u.email == lowerStr e)).isSome = true :=
          List.find?_isSome.mpr ⟨a, hmu, by simp [hae]⟩
        simp [h1]
      · have hae : a.email = lowerStr e := by
          rw [← hl2 a hma]
          exact hlowa
        have h1 : (st.admins.find?
            (fun u => u.email == lowerStr e)).isSome = true :=
          List.find?_isSome.mpr ⟨a, hma, by simp [hae]⟩
        simp [h1]
    exact adminCreate_conflict st hdr n e p i r t u0 l0 r0 hA hs hg

/-- Witness for C1: registering the seed admin's email in different
letter case on the freshly seeded store is rejected with
`email-in-use` and leaves the state unchanged. -/
theorem claim_C1_witness :
    register seededSt "Ada" "OWNER@Winery.Board" "secret1" "u1" "tok1" 5 =
      (RegisterResp.err ApiErr.emailInUse, seededSt) :=
  (claim_C1 cfg0 seededSt (Reachable.init "a1" 0)).2.1 "Ada"
    "OWNER@Winery.Board" "secret1" "u1" "tok1" 5 (by decide)
    ⟨Account.mk "a1" "Builder" "owner@winery.board" (Hash.mk "wineryadmin")
      Role.admin 0 [], by decide, by decide⟩

/-- Claim C2: the authorization gate checks, in order, bearer marker
(`missing-token`, 401), session lookup (`invalid-token`, 401), live
account presence in the partition selected by the session role
(`invalid-token`, 401), then the admin requirement (`forbidden`, 403),
and otherwise returns the live account, the partition list it was
fetched from, and the writer bound to that partition. -/
theorem claim_C2 (st : St) (hdr : String) (ra : Bool) :
    (hasBearer hdr = false →
      requireAuth st hdr ra = AuthResult.err ApiErr.missingToken) ∧
    (hasBearer hdr = true →
      getSession st.sessions (bearerToken hdr) = none →
      requireAuth st hdr ra = AuthResult.err ApiErr.invalidToken) ∧
    (∀ s, hasBearer hdr = true →
      getSession st.sessions (bearerToken hdr) = some s →
      (partitionOf st s.role).find? (fun a => a.id == s.userId) = none →
      requireAuth st hdr ra = AuthResult.err ApiErr.invalidToken) ∧
    (∀ s u, hasBearer hdr = true →
      getSession st.sessions (bearerToken hdr) = some s →
      (partitionOf st s.role).find? (fun a => a.id == s.userId) = some u →
      ra = true → s.role ≠ Role.admin →
      requireAuth st hdr ra = AuthResult.err ApiErr.forbidden) ∧
    (∀ s u, hasBearer hdr = true →
      getSession st.sessions (bearerToken hdr) = some s →
      (partitionOf st s.role).find? (fun a => a.id == s.userId) = some u →
      ¬(ra = true ∧ s.role ≠ Role.admin) →
      requireAuth st hdr ra =
        AuthResult.ok u (partitionOf st s.role) s.role) ∧
    (∀ r l, partitionOf (writerFor r l st) r = l ∧
      (writerFor r l st).sessions = st.sessions ∧
      partitionOf (writerFor r l st) r.other = partitionOf st r.other) ∧
    ApiErr.missingToken.status = 401 ∧ ApiErr.invalidToken.status = 401 ∧
      ApiErr.forbidden.status = 403 := by
  refine ⟨?_, ?_, ?_, ?_, ?_, ?_, rfl, rfl, rfl⟩
  · intro h1
    unfold requireAuth
    rw [if_pos h1]
  · intro h1 h2
    simp [requireAuth, h1, h2]
  · intro s h1 h2 h3
    simp [requireAuth, h1, h2, h3]
  · intro s u h1 h2 h3 h4 h5
    simp [requireAuth, h1, h2, h3, h4, h5]
  · intro s u h1 h2 h3 h4
    simp [requireAuth, h1, h2, h3, h4]
  · intro r l
    exact ⟨partitionOf_writerFor_same r l st, writerFor_sessions r l st,
      partitionOf_writerFor_other r l st⟩

/-- Witness for C2 at a concrete state: the happy path returns the live
account and its partition. -/
theorem claim_C2_witness :
    requireAuth wSt "Bearer tok1" false =
      AuthResult.ok wAcct (partitionOf wSt Role.user) Role.user :=
  (claim_C2 wSt "Bearer tok1" false).2.2.2.2.1
    (SessionEntry.mk "u1" Role.user 0) wAcct (by decide) (by decide)
    (by decide) (by decide)

/-- Creating a todo with a label failing the schema check is rejected
with no state change. -/
theorem createTodo_invalid (st : St) (hdr label i : String) (t : Nat)
    (u0 : Account) (l0 : List Account) (r0 : Role)
    (hA : requireAuth st hdr false = AuthResult.ok u0 l0 r0)
    (hs : todoCreateSchemaOk label = false) :
    createTodo st hdr label i t =
      (CreateTodoResp.err ApiErr.validationError, st) := by
  simp only [createTodo, hA]
  rw [if_pos hs]

/-- Creating a todo with a schema-passing label prepends the trimmed
task to the caller's record and persists its partition. -/
theorem createTodo_success (st : St) (hdr label i : String) (t : Nat)
    (u0 : Account) (l0 : List Account) (r0 : Role)
    (hA : requireAuth st hdr false = AuthResult.ok u0 l0 r0)
    (hs : todoCreateSchemaOk label = true) :
    createTodo st hdr label i t =
      (CreateTodoResp.created (Todo.mk i (jsTrim label) false t),
        writerFor r0
          (updateFirstById l0 u0.id
            (createUpd (Todo.mk i (jsTrim label) false t)))
          st) := by
  simp only [createTodo, hA]
  rw [if_neg (by simp [hs])]

/-- Claim C7 counterexample: with the configured seed email present in
the admin partition in a different letter case, the seeder does not
recognize it — it persists and appends a second admin account. -/
theorem claim_C7_counterexample :
    (∃ a ∈ (St.mk []
        [Account.mk "a0" "Builder" "Owner@winery.board" (Hash.mk "oldhash")
          Role.admin 0 []] []).admins,
      lowerStr a.email = lowerStr "owner@winery.board") ∧
    (ensureSeedAdmin
      (St.mk []
        [Account.mk "a0" "Builder" "Owner@winery.board" (Hash.mk "oldhash")
          Role.admin 0 []] [])
      "owner@winery.board" "wineryadmin" "Builder" "a2" 1).2 = true ∧
    (ensureSeedAdmin
      (St.mk []
        [Account.mk "a0" "Builder" "Owner@winery.board" (Hash.mk "oldhash")
          Role.admin 0 []] [])
      "owner@winery.board" "wineryadmin" "Builder" "a2" 1).1.admins.length
      = 2 := by
  decide

/-- Claim C7 (amended): the seeder lower-cases the configured email and
compares it for exact equality against stored admin emails; on an exact
match it changes nothing (no duplicate, no hash overwrite), otherwise
it appends exactly one admin with the lower-cased email and persists.
On stores whose emails are all lower-case (every service-written
store), the exact check coincides with the case-insensitive one. -/
theorem claim_C7_amended (st : St) (eE eP eN i : String) (t : Nat) :
    ((∃ a ∈ st.admins, a.email = lowerStr eE) →
      ensureSeedAdmin st eE eP eN i t = (st, false)) ∧
    ((∀ a ∈ st.admins, a.email ≠ lowerStr eE) →
      ensureSeedAdmin st eE eP eN i t =
        (St.mk st.users
          (st.admins ++
            [Account.mk i eN (lowerStr eE) (bcryptHash eP) Role.admin t []])
          st.sessions, true)) ∧
    (lowerInv st → (∃ a ∈ st.admins, lowerStr a.email = lowerStr eE) →
      ensureSeedAdmin st eE eP eN i t = (st, false)) := by
  refine ⟨?_, ?_, ?_⟩
  · intro hex
    obtain ⟨a, ha, hae⟩ := hex
    refine ensureSeedAdmin_mem st eE eP eN i t ?_
    unfold emailsOf
    exact List.mem_map.mpr ⟨a, ha, hae⟩
  · intro habs
    exact ensureSeedAdmin_absent st eE eP eN i t habs
  · intro hlow hex
    obtain ⟨a, ha, hae⟩ := hex
    obtain ⟨-, hl2⟩ := (lowerInv_iff st).mp hlow
    have hae' : a.email = lowerStr eE := by
      rw [← hl2 a ha]
      exact hae
    refine ensureSeedAdmin_mem st eE eP eN i t ?_
    unfold emailsOf
    exact List.mem_map.mpr ⟨a, ha, hae'⟩

/-- Witness for the amended C7: re-seeding the already-seeded store
changes nothing and does not persist. -/
theorem claim_C7_witness :
    ensureSeedAdmin seededSt "owner@winery.board" "wineryadmin" "Builder"
      "a2" 1 = (seededSt, false) :=
  (claim_C7_amended seededSt "owner@winery.board" "wineryadmin" "Builder"
    "a2" 1).1
    ⟨Account.mk "a1" "Builder" "owner@winery.board" (Hash.mk "wineryadmin")
      Role.admin 0 [], by decide, by decide⟩

/-- Claim C3 counterexample: a whitespace-only label (three spaces)
passes the schema, is stored with empty trimmed label, and the state
changes — the request is not rejected with a validation error. -/
theorem claim_C3_counterexample :
    (createTodo wSt "Bearer tok1" "   " "t9" 5).1 =
      CreateTodoResp.created (Todo.mk "t9" "" false 5) ∧
    (createTodo wSt "Bearer tok1" "   " "t9" 5).2 ≠ wSt := by
  decide

/-- Claim C3 (amended): the schema validates the raw, untrimmed label
length against 1..140 (so whitespace-only labels of length at least one
are accepted); a failing label is rejected with `validation-error` and
no state change; an accepted request stores the task with label equal
to the trimmed input, prepended to the caller's list. -/
theorem claim_C3_amended (st : St) (hdr label i : String) (t : Nat)
    (u0 : Account) (l0 : List Account) (r0 : Role)
    (hA : requireAuth st hdr false = AuthResult.ok u0 l0 r0) :
    todoCreateSchemaOk label = (1 ≤ label.length && label.length ≤ 140) ∧
    (todoCreateSchemaOk label = false →
      createTodo st hdr label i t =
        (CreateTodoResp.err ApiErr.validationError, st)) ∧
    (todoCreateSchemaOk label = true →
      (createTodo st hdr label i t).1 =
        CreateTodoResp.created (Todo.mk i (jsTrim label) false t) ∧
      taskOf (createTodo st hdr label i t).2 r0 u0.id i =
        some (Todo.mk i (jsTrim label) false t)) := by
  obtain ⟨hb, s, hget, hsrole, hl, hfind, huid, -⟩ :=
    requireAuth_ok_inv st hdr false u0 l0 r0 hA
  refine ⟨rfl, ?_, ?_⟩
  · intro hs
    exact createTodo_invalid st hdr label i t u0 l0 r0 hA hs
  · intro hs
    rw [createTodo_success st hdr label i t u0 l0 r0 hA hs]
    refine ⟨rfl, ?_⟩
    have hfind0 : l0.find? (fun a => a.id == u0.id) = some u0 := by
      rw [hl, huid]
      exact hfind
    have hfu := find?_updateFirstById l0 u0.id
      (createUpd (Todo.mk i (jsTrim label) false t)) u0 (fun a => rfl)
      hfind0
    unfold taskOf
    rw [partitionOf_writerFor_same, hfu]
    show (Todo.mk i (jsTrim label) false t :: u0.todos).find?
        (fun x => x.id == i) = some (Todo.mk i (jsTrim label) false t)
    simp [List.find?_cons]

/-- Witness for the amended C3: a padded label is stored trimmed. -/
theorem claim_C3_witness :
    (createTodo wSt "Bearer tok1" "  buy milk  " "t9" 5).1 =
      CreateTodoResp.created (Todo.mk "t9" "buy milk" false 5) ∧
    taskOf (createTodo wSt "Bearer tok1" "  buy milk  " "t9" 5).2
      Role.user "u1" "t9" = some (Todo.mk "t9" "buy milk" false 5) :=
  (claim_C3_amended wSt "Bearer tok1" "  buy milk  " "t9" 5 wAcct [wAcct]
    Role.user (by decide)).2.2 (by decide)

/-- Claim C6: an authenticated delete whose task id is absent from the
caller's own list answers `not-found` (404), leaves the state
unchanged, and performs no partition write. -/
theorem claim_C6 (st : St) (hdr tid : String) (u0 : Account)
    (l0 : List Account) (r0 : Role)
    (hA : requireAuth st hdr false = AuthResult.ok u0 l0 r0)
    (habs : u0.todos.find? (fun x => x.id == tid) = none) :
    deleteTodo st hdr tid = (DeleteResp.err ApiErr.notFound, st, false)
      ∧ ApiErr.notFound.status = 404 := by
  have hall : ∀ x ∈ u0.todos, (x.id != tid) = true := by
    intro x hx
    have h2 := List.find?_eq_none.mp habs x hx
    have h3 : (x.id == tid) = false := by simpa using h2
    simp [bne, h3]
  have hfeq : u0.todos.filter (fun x => x.id != tid) = u0.todos :=
    List.filter_eq_self.mpr hall
  refine ⟨?_, rfl⟩
  simp only [deleteTodo, hA, hfeq]
  rw [if_pos (beq_self_eq_true _)]

/-- Witness for C6: deleting an unknown id in a concrete state. -/
theorem claim_C6_witness :
    deleteTodo wSt "Bearer tok1" "zz" =
      (DeleteResp.err ApiErr.notFound, wSt, false) :=
  (claim_C6 wSt "Bearer tok1" "zz" wAcct [wAcct] Role.user (by decide)
    (by decide)).1

/-- Claim C4: a successful registration returns a profile whose email
is the lower-cased input email, and a subsequent login with the same
password and the same email in any letter case succeeds with status
200 and a profile with the registered account's id. -/
theorem claim_C4 (cfg : SeedCfg) (st : St) (h : Reachable cfg st)
    (n e p i tok : String) (t : Nat) (tk : String) (pr : Profile)
    (st' : St)
    (hreg : register st n e p i tok t = (RegisterResp.created tk pr, st'))
    (e2 : String) (he2 : lowerStr e2 = lowerStr e)
    (hfmt : emailFormatOk e2 = true) (tok2 : String) (t2 : Nat) :
    pr.email = lowerStr e ∧
    (login st' e2 p tok2 t2).1.status = 200 ∧
    (∃ pr2, (login st' e2 p tok2 t2).1 = LoginResp.ok tok2 pr2 ∧
      pr2.id = pr.id) := by
  obtain ⟨hlow, -, -⟩ := reachable_inv cfg st h
  obtain ⟨hl1, hl2⟩ := (lowerInv_iff st).mp hlow
  by_cases hs : registerSchemaOk n e p = false
  · rw [register_invalid st n e p i tok t hs] at hreg
    exact absurd hreg (by simp)
  · have hs' : registerSchemaOk n e p = true := by simpa using hs
    by_cases hg :
        ((st.users.find? (fun u => lowerStr u.email == lowerStr e)).isSome
          || (st.admins.find?
            (fun a => lowerStr a.email == lowerStr e)).isSome) = true
    · rw [register_conflict st n e p i tok t hs' hg] at hreg
      exact absurd hreg (by simp)
    · simp only [Bool.or_eq_true, not_or,
        Option.not_isSome_iff_eq_none] at hg
      obtain ⟨hu, ha⟩ := hg
      rw [register_success_state st n e p i tok t hs' hu ha] at hreg
      injection hreg with h1 h2
      injection h1 with htk hpr
      subst hpr
      subst h2
      have hcomp : registerSchemaOk n e p =
          (2 ≤ n.length && n.length ≤ 40 && emailFormatOk e &&
            6 ≤ p.length && p.length ≤ 64) := rfl
      rw [hcomp] at hs'
      simp only [Bool.and_eq_true, decide_eq_true_eq] at hs'
      obtain ⟨⟨⟨⟨hn1, hn2⟩, hfe⟩, hp1⟩, hp2⟩ := hs'
      have hlogOk : loginSchemaOk e2 p = true := by
        simp only [loginSchemaOk, Bool.and_eq_true, decide_eq_true_eq]
        exact ⟨⟨hfmt, hp1⟩, hp2⟩
      have husers :
          (st.users ++
            [Account.mk i (jsTrim n) (lowerStr e) (bcryptHash p) Role.user
              t []]).find? (fun u => u.email == lowerStr e2) =
          some (Account.mk i (jsTrim n) (lowerStr e) (bcryptHash p)
            Role.user t []) := by
        rw [List.find?_append]
        have hnone : st.users.find? (fun u => u.email == lowerStr e2)
            = none := by
          apply List.find?_eq_none.mpr
          intro u hu2
          have hne := List.find?_eq_none.mp hu u hu2
          simp only [beq_iff_eq] at hne ⊢
          intro heq
          apply hne
          rw [heq, lowerStr_idem]
          exact he2
        have hone : List.find? (fun u => u.email == lowerStr e2)
            [Account.mk i (jsTrim n) (lowerStr e) (bcryptHash p) Role.user
              t []] =
            some (Account.mk i (jsTrim n) (lowerStr e) (bcryptHash p)
              Role.user t []) := by
          have hbeq : ((Account.mk i (jsTrim n) (lowerStr e) (bcryptHash p)
              Role.user t []).email == lowerStr e2) = true := by
            simp only [beq_iff_eq]
            show lowerStr e = lowerStr e2
            exact he2.symm
          simp [List.find?_cons, hbeq]
        rw [hnone, hone]
        rfl
      have hlog : login
          (St.mk
            (st.users ++
              [Account.mk i (jsTrim n) (lowerStr e) (bcryptHash p)
                Role.user t []])
            st.admins
            ((tok, SessionEntry.mk i Role.user t) :: st.sessions))
          e2 p tok2 t2 =
          (LoginResp.ok tok2
            (scrubMember (Account.mk i (jsTrim n) (lowerStr e)
              (bcryptHash p) Role.user t [])), 
            St.mk
              (st.users ++
                [Account.mk i (jsTrim n) (lowerStr e) (bcryptHash p)
                  Role.user t []])
              st.admins
              ((tok2, SessionEntry.mk i Role.user t2) ::
                ((tok, SessionEntry.mk i Role.user t) :: st.sessions))) := by
        unfold login
        rw [if_neg (by simp [hlogOk])]
        simp only [husers]
        rw [if_pos (by simp [bcryptCompare, bcryptHash])]
      refine ⟨rfl, ?_, ?_⟩
      · rw [hlog]
        rfl
      · refine ⟨scrubMember (Account.mk i (jsTrim n) (lowerStr e)
          (bcryptHash p) Role.user t []), ?_, rfl⟩
        rw [hlog]

/-- The durable state after registering Ada on the freshly seeded
store. -/
def w4St : St :=
  St.mk
    [Account.mk "u1" "Ada" "ada@x.com" (Hash.mk "secret1") Role.user 5 []]
    [Account.mk "a1" "Builder" "owner@winery.board" (Hash.mk "wineryadmin")
      Role.admin 0 []]
    [("tok1", SessionEntry.mk "u1" Role.user 5)]

/-- Witness for C4: the end-to-end round trip of the spec's example,
registering `Ada@X.com` and logging in as `ADA@x.com`. -/
theorem claim_C4_witness :
    (Profile.mk "u1" "Ada" "ada@x.com" Role.user 5 []).email =
      lowerStr "Ada@X.com" ∧
    (login w4St "ADA@x.com" "secret1" "tok2" 9).1.status = 200 ∧
    (∃ pr2, (login w4St "ADA@x.com" "secret1" "tok2" 9).1 =
      LoginResp.ok "tok2" pr2 ∧
      pr2.id = (Profile.mk "u1" "Ada" "ada@x.com" Role.user 5 []).id) :=
  claim_C4 cfg0 seededSt (Reachable.init "a1" 0) "Ada" "Ada@X.com"
    "secret1" "u1" "tok1" 5 "tok1"
    (Profile.mk "u1" "Ada" "ada@x.com" Role.user 5 []) w4St (by decide)
    "ADA@x.com" (by decide) (by decide) "tok2" 9

/-- Claim C8: no profile-returning endpoint leaks the password hash:
`scrubMember` is insensitive to the hash field, and every profile in a
register, login, session, admin-overview or admin-provisioning response
is `scrubMember` of an account. -/
theorem claim_C8 :
    (∀ (a : Account) (hp : Hash),
      scrubMember (Account.mk a.id a.name a.email hp a.role a.createdAt
        a.todos) = scrubMember a) ∧
    (∀ st n e p i tok t tk pr,
      (register st n e p i tok t).1 = RegisterResp.created tk pr →
      ∃ acc, acc ∈ (register st n e p i tok t).2.users ∧
        pr = scrubMember acc) ∧
    (∀ st e p tok t tk pr,
      (login st e p tok t).1 = LoginResp.ok tk pr →
      ∃ acc, (acc ∈ st.users ∨ acc ∈ st.admins) ∧
        pr = scrubMember acc) ∧
    (∀ st hdr pr, sessionEndpoint st hdr = SessionResp.ok pr →
      ∃ acc, (acc ∈ st.users ∨ acc ∈ st.admins) ∧
        pr = scrubMember acc) ∧
    (∀ st hdr us ads, adminOverview st hdr = OverviewResp.ok us ads →
      us = st.users.map scrubMember ∧ ads = st.admins.map scrubMember) ∧
    (∀ st hdr n e p r i t pr,
      (adminCreateUser st hdr n e p r i t).1 =
        AdminCreateResp.created pr →
      ∃ acc, (acc ∈ (adminCreateUser st hdr n e p r i t).2.users ∨
        acc ∈ (adminCreateUser st hdr n e p r i t).2.admins) ∧
        pr = scrubMember acc) := by
  refine ⟨fun a hp => rfl, ?_, ?_, ?_, ?_, ?_⟩
  · intro st n e p i tok t tk pr hyp
    by_cases hs : registerSchemaOk n e p = false
    · rw [register_invalid st n e p i tok t hs] at hyp
      exact absurd hyp (by simp)
    · have hs' : registerSchemaOk n e p = true := by simpa using hs
      by_cases hg :
          ((st.users.find?
            (fun u => lowerStr u.email == lowerStr e)).isSome
            || (st.admins.find?
              (fun a => lowerStr a.email == lowerStr e)).isSome) = true
      · rw [register_conflict st n e p i tok t hs' hg] at hyp
        exact absurd hyp (by simp)
      · simp only [Bool.or_eq_true, not_or,
          Option.not_isSome_iff_eq_none] at hg
        obtain ⟨hu, ha⟩ := hg
        rw [register_success_state st n e p i tok t hs' hu ha] at hyp
        injection hyp with htk hpr
        rw [register_success_state st n e p i tok t hs' hu ha]
        refine ⟨Account.mk i (jsTrim n) (lowerStr e) (bcryptHash p)
          Role.user t [], ?_, hpr.symm⟩
        exact List.mem_append.mpr (Or.inr (by simp))
  · intro st e p tok t tk pr hyp
    unfold login at hyp
    split at hyp
    · exact absurd hyp (by simp)
    · split at hyp
      next user heq =>
        split at hyp
        · injection hyp with htk hpr
          exact ⟨user, Or.inl (List.mem_of_find?_eq_some heq), hpr.symm⟩
        · exact absurd hyp (by simp)
      next heq =>
        split at hyp
        next user heq2 =>
          split at hyp
          · injection hyp with htk hpr
            exact ⟨user, Or.inr (List.mem_of_find?_eq_some heq2),
              hpr.symm⟩
          · exact absurd hyp (by simp)
        next heq2 => exact absurd hyp (by simp)
  · intro st hdr pr hyp
    cases hA : requireAuth st hdr false with
    | err e2 =>
      simp only [sessionEndpoint, hA] at hyp
      exact absurd hyp (by simp)
    | ok u0 l0 r0 =>
      obtain ⟨-, s, -, hsrole, -, hfind, -, -⟩ :=
        requireAuth_ok_inv st hdr false u0 l0 r0 hA
      simp only [sessionEndpoint, hA] at hyp
      injection hyp with hpr
      have hmem : u0 ∈ partitionOf st r0 :=
        List.mem_of_find?_eq_some hfind
      refine ⟨u0, ?_, hpr.symm⟩
      cases r0 with
      | user => exact Or.inl hmem
      | admin => exact Or.inr hmem
  · intro st hdr us ads hyp
    cases hA : requireAuth st hdr true with
    | err e2 =>
      simp only [adminOverview, hA] at hyp
      exact absurd hyp (by simp)
    | ok u0 l0 r0 =>
      simp only [adminOverview, hA] at hyp
      injection hyp with h1 h2
      exact ⟨h1.symm, h2.symm⟩
  · intro st hdr n e p r i t pr hyp
    cases hA : requireAuth st hdr true with
    | err e2 =>
      rw [adminCreate_auth_err st hdr n e p i r t e2 hA] at hyp
      exact absurd hyp (by simp)
    | ok u0 l0 r0 =>
      by_cases hs : registerSchemaOk n e p = false
      · rw [adminCreate_invalid st hdr n e p i r t u0 l0 r0 hA hs] at hyp
        exact absurd hyp (by simp)
      · have hs' : registerSchemaOk n e p = true := by simpa using hs
        by_cases hg :
            ((st.users.find? (fun u => u.email == lowerStr e)).isSome
              || (st.admins.find?
                (fun a => a.email == lowerStr e)).isSome) = true
        · rw [adminCreate_conflict st hdr n e p i r t u0 l0 r0 hA hs' hg]
            at hyp
          exact absurd hyp (by simp)
        · simp only [Bool.or_eq_true, not_or,
            Option.not_isSome_iff_eq_none] at hg
          obtain ⟨hu, ha⟩ := hg
          cases hrg : r.getD Role.user with
          | user =>
            rw [adminCreate_success_user st hdr n e p i r t u0 l0 r0 hA
              hrg hs' hu ha] at hyp
            injection hyp with hpr
            rw [adminCreate_success_user st hdr n e p i r t u0 l0 r0 hA
              hrg hs' hu ha]
            refine ⟨Account.mk i (jsTrim n) (lowerStr e) (bcryptHash p)
              Role.user t [], ?_, hpr.symm⟩
            exact Or.inl (List.mem_append.mpr (Or.inr (by simp)))
          | admin =>
            rw [adminCreate_success_admin st hdr n e p i r t u0 l0 r0 hA
              hrg hs' hu ha] at hyp
            injection hyp with hpr
            rw [adminCreate_success_admin st hdr n e p i r t u0 l0 r0 hA
              hrg hs' hu ha]
            refine ⟨Account.mk i (jsTrim n) (lowerStr e) (bcryptHash p)
              Role.admin t [], ?_, hpr.symm⟩
            exact Or.inr (List.mem_append.mpr (Or.inr (by simp)))

/-- Witness for C8: the admin overview of a concrete two-account state
returns exactly the scrubbed records. -/
theorem claim_C8_witness :
    [Profile.mk "u1" "Ada" "ada@x.com" Role.user 0
      [Todo.mk "t1" "milk" false 0]] = wStA.users.map scrubMember ∧
    [Profile.mk "a1" "Root" "root@x.com" Role.admin 0 []] =
      wStA.admins.map scrubMember :=
  claim_C8.2.2.2.2.1 wStA "Bearer tokA"
    [Profile.mk "u1" "Ada" "ada@x.com" Role.user 0
      [Todo.mk "t1" "milk" false 0]]
    [Profile.mk "a1" "Root" "root@x.com" Role.admin 0 []] (by decide)

/-- Toggling an id present in the caller's own list answers with the
updated task and persists the caller's partition. -/
theorem toggleTodo_found (st : St) (hdr tid : String) (d : Option Bool)
    (u0 : Account) (l0 : List Account) (r0 : Role) (t0 : Todo)
    (hA : requireAuth st hdr false = AuthResult.ok u0 l0 r0)
    (hT : u0.todos.find? (fun x => x.id == tid) = some t0) :
    toggleTodo st hdr tid d =
      (ToggleResp.ok (Todo.mk t0.id t0.label (d.getD (!t0.done))
        t0.createdAt),
        writerFor r0 (updateFirstById l0 u0.id (toggleUpd tid d)) st) := by
  simp only [toggleTodo, hA, hT]

/-- Toggling an id absent from the caller's own list answers
`not-found` with no state change. -/
theorem toggleTodo_miss (st : St) (hdr tid : String) (d : Option Bool)
    (u0 : Account) (l0 : List Account) (r0 : Role)
    (hA : requireAuth st hdr false = AuthResult.ok u0 l0 r0)
    (hT : u0.todos.find? (fun x => x.id == tid) = none) :
    toggleTodo st hdr tid d = (ToggleResp.err ApiErr.notFound, st) := by
  simp only [toggleTodo, hA, hT]

/-- Applying the explicit-done account mutation twice equals applying
it once. -/
theorem toggleUpd_idem (tid : String) (b : Bool) (a : Account) :
    toggleUpd tid (some b) (toggleUpd tid (some b) a) =
      toggleUpd tid (some b) a := by
  unfold toggleUpd
  simp only [toggleFirstTodo_explicit_idem]

/-- Forward construction of a successful pass through the gate. -/
theorem requireAuth_ok_build (st : St) (hdr : String) (ra : Bool)
    (s : SessionEntry) (u : Account)
    (hbearer : hasBearer hdr = true)
    (hget : getSession st.sessions (bearerToken hdr) = some s)
    (hfind : (partitionOf st s.role).find?
      (fun a => a.id == s.userId) = some u)
    (hadm : ¬(ra = true ∧ s.role ≠ Role.admin)) :
    requireAuth st hdr ra =
      AuthResult.ok u (partitionOf st s.role) s.role := by
  simp [requireAuth, hbearer, hget, hfind, hadm]

/-- Claim C5: toggling a task in the caller's own list with no done
field flips its flag exactly once, an explicit done value sets the flag
to that value, repeating a toggle with done set to true is idempotent on
response and state, and an id absent from the caller's list (such as
another account's task id) answers `not-found` with no state change. -/
theorem claim_C5 (st : St) (hdr tid : String) (u0 : Account)
    (l0 : List Account) (r0 : Role) (t0 : Todo)
    (hA : requireAuth st hdr false = AuthResult.ok u0 l0 r0) :
    (u0.todos.find? (fun x => x.id == tid) = some t0 →
      (toggleTodo st hdr tid none).1 =
        ToggleResp.ok (Todo.mk t0.id t0.label (!t0.done) t0.createdAt) ∧
      taskOf (toggleTodo st hdr tid none).2 r0 u0.id tid =
        some (Todo.mk t0.id t0.label (!t0.done) t0.createdAt)) ∧
    (∀ b, u0.todos.find? (fun x => x.id == tid) = some t0 →
      (toggleTodo st hdr tid (some b)).1 =
        ToggleResp.ok (Todo.mk t0.id t0.label b t0.createdAt) ∧
      taskOf (toggleTodo st hdr tid (some b)).2 r0 u0.id tid =
        some (Todo.mk t0.id t0.label b t0.createdAt)) ∧
    (u0.todos.find? (fun x => x.id == tid) = some t0 →
      toggleTodo (toggleTodo st hdr tid (some true)).2 hdr tid
        (some true) = toggleTodo st hdr tid (some true)) ∧
    (u0.todos.find? (fun x => x.id == tid) = none →
      ∀ d, toggleTodo st hdr tid d =
        (ToggleResp.err ApiErr.notFound, st)) := by
  obtain ⟨hb, s, hget, hsrole, hl, hfind, huid, -⟩ :=
    requireAuth_ok_inv st hdr false u0 l0 r0 hA
  have hfind0 : l0.find? (fun a => a.id == u0.id) = some u0 := by
    rw [hl, huid]
    exact hfind
  have htask : ∀ (d : Option Bool) (t1 : Todo),
      u0.todos.find? (fun x => x.id == tid) = some t1 →
      taskOf (writerFor r0 (updateFirstById l0 u0.id (toggleUpd tid d)) st)
        r0 u0.id tid =
        some (Todo.mk t1.id t1.label (d.getD (!t1.done)) t1.createdAt) := by
    intro d t1 hT
    have hfu := find?_updateFirstById l0 u0.id (toggleUpd tid d) u0
      (fun a => rfl) hfind0
    unfold taskOf
    rw [partitionOf_writerFor_same, hfu]
    show (toggleFirstTodo u0.todos tid d).find? (fun x => x.id == tid) = _
    exact find?_toggleFirstTodo u0.todos tid d t1 hT
  refine ⟨?_, ?_, ?_, ?_⟩
  · intro hT
    rw [toggleTodo_found st hdr tid none u0 l0 r0 t0 hA hT]
    exact ⟨rfl, htask none t0 hT⟩
  · intro b hT
    rw [toggleTodo_found st hdr tid (some b) u0 l0 r0 t0 hA hT]
    exact ⟨rfl, htask (some b) t0 hT⟩
  · intro hT
    have e1 := toggleTodo_found st hdr tid (some true) u0 l0 r0 t0 hA hT
    simp only [e1]
    have hses : (writerFor r0
        (updateFirstById l0 u0.id (toggleUpd tid (some true)))
        st).sessions = st.sessions := writerFor_sessions _ _ _
    have hget1 : getSession (writerFor r0
        (updateFirstById l0 u0.id (toggleUpd tid (some true)))
        st).sessions (bearerToken hdr) = some s := by
      rw [hses]
      exact hget
    have hfind1 : (partitionOf (writerFor r0
        (updateFirstById l0 u0.id (toggleUpd tid (some true))) st)
        s.role).find? (fun a => a.id == s.userId) =
        some (toggleUpd tid (some true) u0) := by
      rw [hsrole, partitionOf_writerFor_same, ← huid]
      exact find?_updateFirstById l0 u0.id (toggleUpd tid (some true)) u0
        (fun a => rfl) hfind0
    have hA1 := requireAuth_ok_build
      (writerFor r0 (updateFirstById l0 u0.id (toggleUpd tid (some true)))
        st) hdr false s (toggleUpd tid (some true) u0) hb hget1 hfind1
      (by simp)
    have hpart1 : partitionOf (writerFor r0
        (updateFirstById l0 u0.id (toggleUpd tid (some true))) st)
        s.role = updateFirstById l0 u0.id (toggleUpd tid (some true)) := by
      rw [hsrole]
      exact partitionOf_writerFor_same _ _ _
    rw [hpart1] at hA1
    have hT1 : (toggleUpd tid (some true) u0).todos.find?
        (fun x => x.id == tid) =
        some (Todo.mk t0.id t0.label true t0.createdAt) := by
      show (toggleFirstTodo u0.todos tid (some true)).find?
        (fun x => x.id == tid) = _
      exact find?_toggleFirstTodo u0.todos tid (some true) t0 hT
    rw [toggleTodo_found
      (writerFor r0 (updateFirstById l0 u0.id (toggleUpd tid (some true)))
        st) hdr tid (some true) (toggleUpd tid (some true) u0)
      (updateFirstById l0 u0.id (toggleUpd tid (some true))) s.role
      (Todo.mk t0.id t0.label true t0.createdAt) hA1 hT1]
    have hlist2 : updateFirstById
        (updateFirstById l0 u0.id (toggleUpd tid (some true)))
        (toggleUpd tid (some true) u0).id (toggleUpd tid (some true)) =
        updateFirstById l0 u0.id (toggleUpd tid (some true)) := by
      show updateFirstById
        (updateFirstById l0 u0.id (toggleUpd tid (some true)))
        u0.id (toggleUpd tid (some true)) =
        updateFirstById l0 u0.id (toggleUpd tid (some true))
      rw [updateFirstById_compose l0 u0.id (toggleUpd tid (some true))
        (toggleUpd tid (some true)) (fun a => rfl)]
      congr 1
      funext a
      exact toggleUpd_idem tid true a
    rw [hlist2, hsrole]
    rw [writerFor_writerFor r0
      (updateFirstById l0 u0.id (toggleUpd tid (some true)))
      (updateFirstById l0 u0.id (toggleUpd tid (some true))) st]
    rfl
  · intro hT d
    exact toggleTodo_miss st hdr tid d u0 l0 r0 hA hT

/-- Witness for C5: toggling the concrete task with no done field flips
it to done. -/
theorem claim_C5_witness :
    (toggleTodo wSt "Bearer tok1" "t1" none).1 =
      ToggleResp.ok (Todo.mk "t1" "milk" true 0) ∧
    taskOf (toggleTodo wSt "Bearer tok1" "t1" none).2 Role.user "u1"
      "t1" = some (Todo.mk "t1" "milk" true 0) :=
  (claim_C5 wSt "Bearer tok1" "t1" wAcct [wAcct] Role.user
    (Todo.mk "t1" "milk" false 0) (by decide)).1 (by decide)
